import Mathlib

/-!
Verification of the PCA fit/transform contract of the notebook
`01a_pca_student.ipynb` (classes `Transformation` and `PCA`).

The notebook is a fill-in-the-blank teaching artifact: the class skeletons,
all validation checks (input rank, fitted flag, component-count clamping)
and the grading test cell are present in the source, while a handful of
numerical lines are left for the student.  Definitions below translate the
present lines directly; lines absent from the source are modelled from the
specification and are marked `Modelled from the spec:` in their doc
comments.  Real-number arithmetic is embedded exactly over `ℚ`; the
external decomposition primitive (`np.linalg.svd`) is passed in as an
explicit oracle argument, with its documented guarantees (orthogonal
factors, descending nonnegative singular values) taken as hypotheses.
-/

open Matrix

/-- Python exception kinds raised by the notebook's code paths. -/
inductive PyError where
  | valueError : String → PyError
  | runtimeError : String → PyError
  | notImplementedError : String → PyError
deriving DecidableEq

/-- Result of the external decomposition primitive (`np.linalg.svd` applied to
the centered matrix): the list of singular values and the `p × p` matrix `V`
of loading directions, stored as a list of rows (so column `j` of `V` is the
`j`-th direction).  The factor `U` is not stored by `fit` and is only
referred to in hypotheses. -/
structure SVDResult where
  svals : List ℚ
  V : List (List ℚ)
deriving DecidableEq

/-- A `numpy` array of arbitrary rank: its shape and its row-major data.
Only the rank check of `fit` looks at non-2D arrays. -/
structure NDArray where
  shape : List ℕ
  data : List ℚ
deriving DecidableEq

/-- The `PCA` instance state.  Field names follow the Python attributes.
In Python the `_mean`, `loadings_`, `explained_variance_` and
`explained_variance_ratio_` attributes do not exist before the first `fit`;
they are embedded as lists that are empty at construction. -/
structure PCA where
  n_components : Option ℤ
  _mean : List ℚ
  loadings_ : List (List ℚ)
  explained_variance_ : List ℚ
  explained_variance_ratio_ : List ℚ
  _fitted : Bool
deriving DecidableEq

/-- Entry `(i, j)` of a matrix stored as a list of rows, with `0` as the
out-of-range default. -/
def entry (A : List (List ℚ)) (i j : ℕ) : ℚ :=
  (A.getD i []).getD j 0

/-- Interpretation of a list-of-rows matrix as a Mathlib matrix of the given
size. -/
def toMat (m r : ℕ) (A : List (List ℚ)) : Matrix (Fin m) (Fin r) ℚ :=
  Matrix.of fun i j => entry A i j

/-- The list-of-rows matrix `A` has `m` rows, each of length `r`. -/
def IsMat (m r : ℕ) (A : List (List ℚ)) : Prop :=
  A.length = m ∧ ∀ row ∈ A, row.length = r

instance (m r : ℕ) (A : List (List ℚ)) : Decidable (IsMat m r A) := by
  unfold IsMat; infer_instance

/-- Dot product of two rows, as `numpy` computes it inside `@`. -/
def dotProd (xs ys : List ℚ) : ℚ :=
  (List.zipWith (· * ·) xs ys).sum

/-- The list of the first `r` columns of `B`. -/
def colsOf (r : ℕ) (B : List (List ℚ)) : List (List ℚ) :=
  (List.range r).map fun j => B.map fun row => row.getD j 0

/-- Matrix product `A @ B` on list-of-rows matrices; the column count of `B`
is read off its first row, as `numpy` reads it off the shape. -/
def matMul (A B : List (List ℚ)) : List (List ℚ) :=
  A.map fun row => (colsOf (B.headD []).length B).map fun col => dotProd row col

/-- Row-wise subtraction `X - mu` of a broadcast row vector, as in
`X - X.mean(axis=0)`. -/
def subMean (X : List (List ℚ)) (mu : List ℚ) : List (List ℚ) :=
  X.map fun row => List.zipWith (· - ·) row mu

/-- Modelled from the spec: the per-feature mean vector over the `n`
observations (the missing `self._mean = ...` line; `X.mean(axis=0)` on an
`n × p` array). -/
def colMeans (n p : ℕ) (X : List (List ℚ)) : List ℚ :=
  (List.range p).map fun j => (X.map fun row => row.getD j 0).sum / (n : ℚ)

/-- The centered data matrix `X_c` used by `fit`: the data minus the
per-feature means. -/
def centeredList (n p : ℕ) (X : List (List ℚ)) : List (List ℚ) :=
  subMean X (colMeans n p X)

/-- The sample covariance matrix of `X` (what the test cell computes with
`np.cov(X, rowvar=False)`): `X_cᵀ X_c / (n - 1)` for the centered `X_c`. -/
def sampleCov (n p : ℕ) (X : List (List ℚ)) : Matrix (Fin p) (Fin p) ℚ :=
  ((n : ℚ) - 1)⁻¹ • ((toMat n p (centeredList n p X))ᵀ * toMat n p (centeredList n p X))

/-- The clamping step of `fit`: `if self.n_components is not None: if
self.n_components > X.shape[1]: self.n_components = ...`.  The branch
structure and the assignment target are in the source; the assigned value is
modelled from the spec (`silently clamped down to p`). -/
def clampComponents : Option ℤ → ℕ → Option ℤ
  | none, _ => none
  | some c, p => if (p : ℤ) < c then some (p : ℤ) else some c

/-- The number of entries a slice `arr[:self.n_components]` keeps: all of
them when `n_components` is `None`, else `n_components` (Python slicing
truncates at the array length, as `List.take` does).  Negative counts are
ruled out by the constructor and are not modelled. -/
def componentCount : Option ℤ → ℕ → ℕ
  | none, p => p
  | some c, _ => c.toNat

/-- `PCA.__init__`.  The attribute stores (`self.n_components = ...` and the
inherited `self._fitted = False` from `Transformation.__init__`) are in the
source.  Modelled from the spec: the sanity check, which `Fails with an
invalid-argument error if a provided count is less than 1`. -/
def PCA.init (n_components : Option ℤ) : Except PyError PCA :=
  match n_components with
  | some c =>
      if c < 1 then
        .error (.valueError "The number of components must be at least 1!")
      else
        .ok { n_components := some c, _mean := [], loadings_ := [],
              explained_variance_ := [], explained_variance_ratio_ := [],
              _fitted := false }
  | none =>
      .ok { n_components := none, _mean := [], loadings_ := [],
            explained_variance_ := [], explained_variance_ratio_ := [],
            _fitted := false }

/-- The body of `PCA.fit` after the rank check, on an `n × p` data matrix.
The returned pair is the updated instance together with the array object the
caller's `X` still refers to after the call (the code rebinds `X = X.copy()`
before centering, so the caller's array is untouched).

From the source: the clamping step, the copy, the truncation
`self.explained_variance_[:self.n_components]`, the ratio division
`self.explained_variance_ / norm`.

Modelled from the spec: the mean (`colMeans`), the centering of the copy,
the call of the decomposition oracle `svdf` on the centered matrix, the
loadings (`the first k columns of V`), the explained variance
(`sᵢ² / (n − 1)` per singular value), the total `norm` (`sum of sᵢ²/(n−1)
over all p singular values`), and setting the fitted flag true. -/
def PCA.fitCore (st : PCA) (n p : ℕ) (X : List (List ℚ))
    (svdf : List (List ℚ) → SVDResult) : PCA × List (List ℚ) :=
  let st1 : PCA := { st with n_components := clampComponents st.n_components p }
  let mu := colMeans n p X
  let Xc := subMean X mu
  let r := svdf Xc
  let k := componentCount st1.n_components p
  let evFull := r.svals.map fun s => s ^ 2 / ((n : ℚ) - 1)
  let ev := evFull.take k
  let norm := evFull.sum
  ({ st1 with
      _mean := mu
      loadings_ := r.V.map fun row => row.take k
      explained_variance_ := ev
      explained_variance_ratio_ := ev.map fun v => v / norm
      _fitted := true }, X)

/-- `PCA.fit` on an arbitrary-rank array.  The rank check and its message
`'The input data must be two-dimensional! However we received %r dimensional
data.' % X.ndim` are in the source; a 2-D array of shape `[n, p]` is then
read row-major and handed to `PCA.fitCore`. -/
def ndToRows (n p : ℕ) (A : NDArray) : List (List ℚ) :=
  (List.range n).map fun i => (List.range p).map fun j => A.data.getD (i * p + j) 0

/-- See `PCA.fitCore` for the body; this wrapper performs the
two-dimensionality check of the source and extracts the `n × p` content. -/
def PCA.fit (st : PCA) (A : NDArray) (svdf : List (List ℚ) → SVDResult) :
    Except PyError PCA :=
  if A.shape.length ≠ 2 then
    .error (.valueError ("The input data must be two-dimensional! However we received "
      ++ toString A.shape.length ++ " dimensional data."))
  else
    .ok (PCA.fitCore st (A.shape.getD 0 0) (A.shape.getD 1 0)
          (ndToRows (A.shape.getD 0 0) (A.shape.getD 1 0) A) svdf).1

/-- `PCA.transform`.  The fitted-flag check, its `RuntimeError` message and
the `return scores, self.loadings_` line are in the source.  Modelled from
the spec: the projection `scores = (X − stored_mean) · loadings`.  The
second component of the result is the instance state after the call (the
method assigns no attribute, so it is the input state on both paths). -/
def PCA.transform (st : PCA) (X : List (List ℚ)) :
    Except PyError (List (List ℚ) × List (List ℚ)) × PCA :=
  if st._fitted = false then
    (.error (.runtimeError "PCA must be fitted before calling the transform method!"), st)
  else
    (.ok (matMul (subMean X st._mean) st.loadings_, st.loadings_), st)

/-- A fresh instance as produced by construction without a component count. -/
def unfittedInstance : PCA :=
  { n_components := none, _mean := [], loadings_ := [], explained_variance_ := [],
    explained_variance_ratio_ := [], _fitted := false }

/-- A rank-1 array, used to exercise the dimensionality check. -/
def rank1Array : NDArray :=
  { shape := [4], data := [1, 2, 3, 4] }

/-- A decomposition oracle that is never consulted in the error paths. -/
def trivialSVD : List (List ℚ) → SVDResult :=
  fun _ => { svals := [], V := [] }

/-- C7: constructing `PCA` with a component count below 1 fails with an
invalid-argument error; a count of at least 1, or an unset count, is stored
unchanged on a fresh unfitted instance, with no validation against any data
shape. -/
theorem init_validates_components :
    (∀ c : ℤ, c < 1 →
      PCA.init (some c) =
        .error (.valueError "The number of components must be at least 1!")) ∧
    (∀ c : ℤ, 1 ≤ c →
      PCA.init (some c) =
        .ok { n_components := some c, _mean := [], loadings_ := [],
              explained_variance_ := [], explained_variance_ratio_ := [],
              _fitted := false }) ∧
    PCA.init none =
      .ok { n_components := none, _mean := [], loadings_ := [],
            explained_variance_ := [], explained_variance_ratio_ := [],
            _fitted := false } := by
  refine ⟨fun c hc => ?_, fun c hc => ?_, rfl⟩
  · simp [PCA.init, hc]
  · simp [PCA.init, not_lt.mpr hc]

/-- Witness for C7 at the concrete counts 0 and 3. -/
theorem init_validates_components_witness :
    PCA.init (some 0) =
      .error (.valueError "The number of components must be at least 1!") ∧
    PCA.init (some 3) =
      .ok { n_components := some 3, _mean := [], loadings_ := [],
            explained_variance_ := [], explained_variance_ratio_ := [],
            _fitted := false } :=
  ⟨init_validates_components.1 0 (by decide),
   init_validates_components.2.1 3 (by decide)⟩

/-- C5: on any instance whose fitted flag is false (as it is at
construction), `transform` fails with the `RuntimeError` state error for
every input and leaves the instance unfitted. -/
theorem transform_unfitted_errors (st : PCA) (X : List (List ℚ))
    (hf : st._fitted = false) :
    PCA.transform st X =
      (.error (.runtimeError "PCA must be fitted before calling the transform method!"),
        st) ∧
    (PCA.transform st X).2._fitted = false ∧
    (∀ c : Option ℤ, ∀ st0 : PCA, PCA.init c = .ok st0 → st0._fitted = false) := by
  refine ⟨by simp [PCA.transform, hf], by simp [PCA.transform, hf], ?_⟩
  intro c st0 h
  cases c with
  | none =>
      have h2 := Except.ok.inj h
      exact h2 ▸ rfl
  | some c =>
      by_cases hc : c < 1
      · simp [PCA.init, hc] at h
      · simp [PCA.init, hc] at h
        exact h ▸ rfl

/-- Witness for C5 on a freshly constructed instance. -/
theorem transform_unfitted_errors_witness :
    PCA.transform unfittedInstance [[1, 2], [3, 4]] =
      (.error (.runtimeError "PCA must be fitted before calling the transform method!"),
        unfittedInstance) :=
  (transform_unfitted_errors unfittedInstance [[1, 2], [3, 4]] rfl).1

/-- C6: `fit` on input whose rank is not 2 fails with the `ValueError` whose
message names the received dimensionality, and this for every decomposition
oracle, so the call never reaches the decomposition. -/
theorem fit_non2d_errors (st : PCA) (A : NDArray) (hA : A.shape.length ≠ 2) :
    ∀ svdf : List (List ℚ) → SVDResult,
      PCA.fit st A svdf =
        .error (.valueError ("The input data must be two-dimensional! However we received "
          ++ toString A.shape.length ++ " dimensional data.")) := by
  intro svdf
  simp [PCA.fit, hA]

/-- Witness for C6 on a rank-1 array: the message cites dimensionality 1. -/
theorem fit_non2d_errors_witness :
    PCA.fit unfittedInstance rank1Array trivialSVD =
      .error (.valueError
        "The input data must be two-dimensional! However we received 1 dimensional data.") := by
  have h := fit_non2d_errors unfittedInstance rank1Array (by decide) trivialSVD
  exact h

/-- C9: `fit` centers a copy of the data, so after the body of `fit` the
caller's matrix still holds exactly the input values. -/
theorem fit_preserves_caller_matrix (st : PCA) (n p : ℕ) (X : List (List ℚ))
    (svdf : List (List ℚ) → SVDResult) :
    (PCA.fitCore st n p X svdf).2 = X :=
  rfl

/-- Reading a mapped list at an in-range index applies the function to the
original entry, whatever the defaults. -/
theorem getD_map_of_lt {α β : Type} (f : α → β) (l : List α) (i : ℕ) (d : β)
    (d' : α) (h : i < l.length) : (l.map f).getD i d = f (l.getD i d') := by
  simp [List.getD_eq_getElem?_getD, List.getElem?_map, List.getElem?_eq_getElem h]

/-- Reading a zipWith at an in-range index combines the two entries. -/
theorem getD_zipWith_of_lt (f : ℚ → ℚ → ℚ) (as bs : List ℚ) (i : ℕ)
    (h1 : i < as.length) (h2 : i < bs.length) :
    (List.zipWith f as bs).getD i 0 = f (as.getD i 0) (bs.getD i 0) := by
  induction as generalizing bs i with
  | nil => simp at h1
  | cons a as ih =>
      cases bs with
      | nil => simp at h2
      | cons b bs =>
          cases i with
          | zero => rfl
          | succ i =>
              simp only [List.zipWith_cons_cons, List.getD_cons_succ]
              exact ih bs i (by simpa using h1) (by simpa using h2)

/-- Reading a mapped range at an in-range index evaluates the function. -/
theorem getD_range_map {α : Type} (g : ℕ → α) (r j : ℕ) (d : α) (h : j < r) :
    ((List.range r).map g).getD j d = g j := by
  rw [getD_map_of_lt g _ j d 0 (by simpa using h)]
  congr 1
  simp [List.getD_eq_getElem?_getD, List.getElem?_range h]

/-- An in-range `getD` is a member of the list. -/
theorem getD_mem_of_lt {α : Type} (l : List α) (i : ℕ) (d : α)
    (h : i < l.length) : l.getD i d ∈ l := by
  rw [List.getD_eq_getElem?_getD, List.getElem?_eq_getElem h]
  exact List.getElem_mem h

/-- Every in-range row of a well-sized matrix has the declared width. -/
theorem IsMat.row_length {m r : ℕ} {A : List (List ℚ)} (h : IsMat m r A)
    (i : ℕ) (hi : i < m) : (A.getD i []).length = r :=
  h.2 _ (getD_mem_of_lt A i [] (h.1.symm ▸ hi))

/-- The list dot product of two length-`q` rows is the `Fin q` sum of the
entry products. -/
theorem dotProd_eq_sum (q : ℕ) (xs ys : List ℚ) (hx : xs.length = q)
    (hy : ys.length = q) :
    dotProd xs ys = ∑ t : Fin q, xs.getD t 0 * ys.getD t 0 := by
  induction q generalizing xs ys with
  | zero =>
      obtain rfl := List.length_eq_zero.mp hx
      simp [dotProd]
  | succ q ih =>
      cases xs with
      | nil => simp at hx
      | cons x xs =>
          cases ys with
          | nil => simp at hy
          | cons y ys =>
              have hx' : xs.length = q := by simpa using hx
              have hy' : ys.length = q := by simpa using hy
              show x * y + dotProd xs ys = _
              rw [ih xs ys hx' hy', Fin.sum_univ_succ]
              simp

/-- The list-level product `A @ B` agrees with the Mathlib matrix product
under the size interpretation. -/
theorem toMat_matMul (m q r : ℕ) (A B : List (List ℚ)) (hA : IsMat m q A)
    (hB : IsMat q r B) (hBc : (B.headD []).length = r) :
    toMat m r (matMul A B) = toMat m q A * toMat q r B := by
  ext i j
  rw [Matrix.mul_apply]
  show entry (matMul A B) i j = _
  unfold matMul entry
  rw [hBc]
  rw [getD_map_of_lt _ A i [] [] (by rw [hA.1]; exact i.isLt)]
  rw [getD_map_of_lt _ (colsOf r B) (j : ℕ) 0 [] (by simp [colsOf])]
  rw [show (colsOf r B).getD (j : ℕ) [] = B.map fun row => row.getD (j : ℕ) 0 from
    getD_range_map _ r j [] j.isLt]
  have hrow : (A.getD (i : ℕ) []).length = q := hA.row_length i i.isLt
  have hcol : (B.map fun row => row.getD (j : ℕ) 0).length = q := by simp [hB.1]
  rw [dotProd_eq_sum q _ _ hrow hcol]
  apply Finset.sum_congr rfl
  intro t _
  congr 1
  rw [getD_map_of_lt _ B (t : ℕ) 0 [] (by rw [hB.1]; exact t.isLt)]
  rfl

/-- Centering subtracts the broadcast mean row, in matrix semantics. -/
theorem toMat_subMean (n p : ℕ) (X : List (List ℚ)) (mu : List ℚ)
    (hX : IsMat n p X) (hmu : mu.length = p) :
    toMat n p (subMean X mu) = toMat n p X - Matrix.of fun (_ : Fin n) (j : Fin p) => mu.getD (j : ℕ) 0 := by
  ext i j
  show entry (subMean X mu) i j = entry X i j - mu.getD (j : ℕ) 0
  unfold subMean entry
  rw [getD_map_of_lt _ X (i : ℕ) [] [] (by rw [hX.1]; exact i.isLt)]
  rw [getD_zipWith_of_lt _ _ _ _ (by rw [hX.row_length i i.isLt]; exact j.isLt)
    (by rw [hmu]; exact j.isLt)]

/-- Centering preserves the matrix size. -/
theorem subMean_isMat {n p : ℕ} {X : List (List ℚ)} {mu : List ℚ}
    (hX : IsMat n p X) (hmu : mu.length = p) : IsMat n p (subMean X mu) := by
  constructor
  · simp [subMean, hX.1]
  · intro row hrow
    simp only [subMean, List.mem_map] at hrow
    obtain ⟨r, hr, rfl⟩ := hrow
    simp [hmu, hX.2 r hr]

/-- C1: on a fitted instance, `transform` returns the pair of the projected
scores and the stored loadings, leaves the state untouched, and the scores
are exactly `(X - stored_mean) @ loadings_` in matrix semantics. -/
theorem transform_fitted_projects (st : PCA) (X : List (List ℚ)) (n p k : ℕ)
    (hf : st._fitted = true) (hX : IsMat n p X) (hm : st._mean.length = p)
    (hL : IsMat p k st.loadings_) (hLc : (st.loadings_.headD []).length = k) :
    PCA.transform st X =
      (.ok (matMul (subMean X st._mean) st.loadings_, st.loadings_), st) ∧
    toMat n k (matMul (subMean X st._mean) st.loadings_) =
      (toMat n p X - Matrix.of fun (_ : Fin n) (j : Fin p) => st._mean.getD (j : ℕ) 0) * toMat p k st.loadings_ := by
  constructor
  · simp [PCA.transform, hf]
  · rw [toMat_matMul n p k _ _ (subMean_isMat hX hm) hL hLc,
      toMat_subMean n p X st._mean hX hm]

/-- A concrete fitted instance used to exercise `transform`. -/
def fittedFixture : PCA :=
  { n_components := some 1, _mean := [0, 0], loadings_ := [[1], [0]],
    explained_variance_ := [1], explained_variance_ratio_ := [1], _fitted := true }

/-- Witness for C1 on a concrete fitted instance and a `1 × 2` input. -/
theorem transform_fitted_projects_witness :
    PCA.transform fittedFixture [[1, 2]] =
      (.ok (matMul (subMean [[1, 2]] fittedFixture._mean) fittedFixture.loadings_,
        fittedFixture.loadings_), fittedFixture) ∧
    toMat 1 1 (matMul (subMean [[1, 2]] fittedFixture._mean) fittedFixture.loadings_) =
      (toMat 1 2 [[1, 2]] - Matrix.of fun (_ : Fin 1) (j : Fin 2) => fittedFixture._mean.getD (j : ℕ) 0) *
        toMat 2 1 fittedFixture.loadings_ :=
  transform_fitted_projects fittedFixture [[1, 2]] 1 2 1 rfl (by decide) rfl
    (by decide) rfl

/-- The Gram matrix of `U · S · Vᵀ` with orthonormal `U`-columns is the
conjugation of `S²` by `V`. -/
theorem svd_gram {n p : ℕ} (M U : Matrix (Fin n) (Fin p) ℚ)
    (V : Matrix (Fin p) (Fin p) ℚ) (s : Fin p → ℚ)
    (hU : Uᵀ * U = 1) (hM : M = U * Matrix.diagonal s * Vᵀ) :
    Mᵀ * M = V * Matrix.diagonal (fun i => s i * s i) * Vᵀ := by
  subst hM
  have h1 : (U * Matrix.diagonal s * Vᵀ)ᵀ = V * Matrix.diagonal s * Uᵀ := by
    rw [Matrix.transpose_mul, Matrix.transpose_mul, Matrix.transpose_transpose,
      Matrix.diagonal_transpose, Matrix.mul_assoc]
  rw [h1]
  simp only [Matrix.mul_assoc]
  rw [← Matrix.mul_assoc Uᵀ U (Matrix.diagonal s * Vᵀ), hU, Matrix.one_mul]
  rw [← Matrix.mul_assoc (Matrix.diagonal s) (Matrix.diagonal s) Vᵀ,
    Matrix.diagonal_mul_diagonal]

/-- The sample covariance of `X` is `V · (S²/(n−1)) · Vᵀ` whenever the
centered data decomposes as `U · S · Vᵀ` with orthonormal `U`-columns. -/
theorem sampleCov_eigendecomp {n p : ℕ} (X : List (List ℚ))
    (U : Matrix (Fin n) (Fin p) ℚ) (V : Matrix (Fin p) (Fin p) ℚ) (s : Fin p → ℚ)
    (hU : Uᵀ * U = 1)
    (hdec : toMat n p (centeredList n p X) = U * Matrix.diagonal s * Vᵀ) :
    sampleCov n p X =
      V * Matrix.diagonal (fun i => s i ^ 2 / ((n : ℚ) - 1)) * Vᵀ := by
  unfold sampleCov
  rw [svd_gram _ U V s hU hdec]
  have hd : ((n : ℚ) - 1)⁻¹ • Matrix.diagonal (fun i => s i * s i)
      = Matrix.diagonal (fun i : Fin p => s i ^ 2 / ((n : ℚ) - 1)) := by
    ext a b
    by_cases hab : a = b
    · subst hab
      simp [Matrix.diagonal_apply_eq]
      ring
    · simp [Matrix.diagonal_apply_ne _ hab]
  rw [← Matrix.smul_mul, ← Matrix.mul_smul, hd]

/-- A column of `V` is an eigenvector of any matrix of the form
`V · D · Vᵀ` with `V` orthogonal and `D` diagonal. -/
theorem eigencolumn {p : ℕ} (C V : Matrix (Fin p) (Fin p) ℚ) (d : Fin p → ℚ)
    (hC : C = V * Matrix.diagonal d * Vᵀ) (hV : Vᵀ * V = 1) (i : Fin p) :
    C.mulVec (fun j => V j i) = d i • fun j => V j i := by
  funext j
  have h1 : C.mulVec (fun t => V t i) j = (C * V) j i := by
    simp [Matrix.mulVec, Matrix.mul_apply, dotProduct]
  rw [h1, hC, Matrix.mul_assoc (V * Matrix.diagonal d) Vᵀ V, hV, Matrix.mul_one,
    Matrix.mul_diagonal]
  simp [mul_comm]

/-- Unfolding of the instance returned by the body of `fit`, field by
field. -/
theorem fitCore_fields (st : PCA) (n p : ℕ) (X : List (List ℚ))
    (svdf : List (List ℚ) → SVDResult) :
    (PCA.fitCore st n p X svdf).1 =
      { n_components := clampComponents st.n_components p
        _mean := colMeans n p X
        loadings_ := (svdf (centeredList n p X)).V.map fun row =>
          row.take (componentCount (clampComponents st.n_components p) p)
        explained_variance_ := ((svdf (centeredList n p X)).svals.map fun s =>
          s ^ 2 / ((n : ℚ) - 1)).take
            (componentCount (clampComponents st.n_components p) p)
        explained_variance_ratio_ := (((svdf (centeredList n p X)).svals.map fun s =>
          s ^ 2 / ((n : ℚ) - 1)).take
            (componentCount (clampComponents st.n_components p) p)).map fun v =>
              v / ((svdf (centeredList n p X)).svals.map fun s =>
                s ^ 2 / ((n : ℚ) - 1)).sum
        _fitted := true } :=
  rfl

/-- C2: after fitting a fresh all-components instance, the stored explained
variances are `sᵢ²/(n−1)` for the singular values of the centered data; the
sample covariance of `X` eigendecomposes over the returned directions with
exactly those eigenvalues, and they are in descending order. -/
theorem fit_explained_variance_eigenvalues (st : PCA) (n p : ℕ)
    (X : List (List ℚ)) (svdf : List (List ℚ) → SVDResult)
    (svals : List ℚ) (Vl : List (List ℚ)) (U : Matrix (Fin n) (Fin p) ℚ)
    (hn : 2 ≤ n) (hcomp : st.n_components = none)
    (hsvd : svdf (centeredList n p X) = { svals := svals, V := Vl })
    (hslen : svals.length = p)
    (hU : Uᵀ * U = 1)
    (hVorth : (toMat p p Vl)ᵀ * toMat p p Vl = 1)
    (hdec : toMat n p (centeredList n p X) =
      U * Matrix.diagonal (fun i : Fin p => svals.getD i 0) * (toMat p p Vl)ᵀ)
    (hdesc : ∀ i j : Fin p, i ≤ j → svals.getD j 0 ≤ svals.getD i 0)
    (hpos : ∀ i : Fin p, 0 ≤ svals.getD i 0) :
    (PCA.fitCore st n p X svdf).1.explained_variance_ =
      svals.map (fun v => v ^ 2 / ((n : ℚ) - 1)) ∧
    sampleCov n p X =
      toMat p p Vl *
        Matrix.diagonal (fun i : Fin p => (svals.getD i 0) ^ 2 / ((n : ℚ) - 1)) *
        (toMat p p Vl)ᵀ ∧
    (∀ i : Fin p,
      (sampleCov n p X).mulVec (fun j => toMat p p Vl j i) =
        ((svals.getD i 0) ^ 2 / ((n : ℚ) - 1)) • fun j => toMat p p Vl j i) ∧
    (∀ i j : Fin p, i ≤ j →
      (svals.getD j 0) ^ 2 / ((n : ℚ) - 1) ≤ (svals.getD i 0) ^ 2 / ((n : ℚ) - 1)) := by
  have hcov := sampleCov_eigendecomp X U (toMat p p Vl)
    (fun i : Fin p => svals.getD i 0) hU hdec
  have hn1 : (0 : ℚ) < (n : ℚ) - 1 := by
    have : (2 : ℚ) ≤ (n : ℚ) := by exact_mod_cast hn
    linarith
  refine ⟨?_, hcov, fun i => eigencolumn _ _ _ hcov hVorth i, fun i j hij => ?_⟩
  · rw [fitCore_fields]
    simp only [hsvd, hcomp, clampComponents, componentCount]
    exact List.take_of_length_le (by simp [hslen])
  · have hpow : (svals.getD (j : ℕ) 0) ^ 2 ≤ (svals.getD (i : ℕ) 0) ^ 2 :=
      pow_le_pow_left₀ (hpos j) (hdesc i j hij) 2
    exact (div_le_div_iff_of_pos_right hn1).mpr hpow

/-- The full-rank 4 × 2 data fixture; both feature means are zero. -/
def Xfull : List (List ℚ) := [[5, 5/2], [-1, -11/2], [1, 11/2], [-5, -5/2]]

/-- The orthogonal loading basis shared by the concrete fixtures. -/
def Vfull : List (List ℚ) := [[3/5, 4/5], [4/5, -3/5]]

/-- Decomposition oracle returning the hand-checked SVD data of `Xfull`
(singular values 10 and 5). -/
def svdFull : List (List ℚ) → SVDResult :=
  fun _ => { svals := [10, 5], V := Vfull }

/-- The left factor of the hand-checked decompositions of the fixtures. -/
def Ufull : Matrix (Fin 4) (Fin 2) ℚ :=
  toMat 4 2 [[1/2, 1/2], [-1/2, 1/2], [1/2, -1/2], [-1/2, -1/2]]

/-- The columns of `Ufull` are orthonormal. -/
theorem Ufull_orthonormal : Ufullᵀ * Ufull = 1 := by
  ext a b
  fin_cases a <;> fin_cases b <;>
    simp [Ufull, toMat, entry, Matrix.mul_apply, Fin.sum_univ_four,
      Matrix.one_apply, Matrix.transpose_apply, List.getD_cons_zero,
      List.getD_cons_succ, show ((3 : Fin 4) : ℕ) = 3 from rfl] <;> norm_num

/-- `Vfull` is orthogonal. -/
theorem Vfull_orthogonal : (toMat 2 2 Vfull)ᵀ * toMat 2 2 Vfull = 1 := by
  ext a b
  fin_cases a <;> fin_cases b <;>
    simp [Vfull, toMat, entry, Matrix.mul_apply, Fin.sum_univ_two,
      Matrix.one_apply, Matrix.transpose_apply, List.getD_cons_zero,
      List.getD_cons_succ] <;> norm_num

/-- The fixture's feature means vanish, so centering is the identity on it. -/
theorem centered_Xfull : centeredList 4 2 Xfull = Xfull := by
  norm_num [centeredList, colMeans, subMean, Xfull, List.range_succ,
    List.getD_cons_zero, List.getD_cons_succ]

/-- Hand-checked decomposition of the centered fixture. -/
theorem Xfull_decomp :
    toMat 4 2 (centeredList 4 2 Xfull) =
      Ufull * Matrix.diagonal (fun i : Fin 2 => ([10, 5] : List ℚ).getD i 0) *
        (toMat 2 2 Vfull)ᵀ := by
  rw [centered_Xfull]
  ext i j
  fin_cases i <;> fin_cases j <;>
    simp [Ufull, Vfull, Xfull, toMat, entry, Matrix.mul_apply, Matrix.diagonal,
      Matrix.transpose_apply, Fin.sum_univ_two, List.getD_cons_zero,
      List.getD_cons_succ, show ((3 : Fin 4) : ℕ) = 3 from rfl] <;> norm_num

/-- Witness for C2 on the concrete 4 × 2 fixture. -/
theorem fit_explained_variance_eigenvalues_witness :
    (PCA.fitCore unfittedInstance 4 2 Xfull svdFull).1.explained_variance_ =
      ([10, 5] : List ℚ).map (fun v => v ^ 2 / (((4 : ℕ) : ℚ) - 1)) ∧
    sampleCov 4 2 Xfull =
      toMat 2 2 Vfull *
        Matrix.diagonal
          (fun i : Fin 2 => (([10, 5] : List ℚ).getD i 0) ^ 2 / (((4 : ℕ) : ℚ) - 1)) *
        (toMat 2 2 Vfull)ᵀ ∧
    (∀ i : Fin 2,
      (sampleCov 4 2 Xfull).mulVec (fun j => toMat 2 2 Vfull j i) =
        ((([10, 5] : List ℚ).getD i 0) ^ 2 / (((4 : ℕ) : ℚ) - 1)) •
          fun j => toMat 2 2 Vfull j i) ∧
    (∀ i j : Fin 2, i ≤ j →
      (([10, 5] : List ℚ).getD j 0) ^ 2 / (((4 : ℕ) : ℚ) - 1) ≤
        (([10, 5] : List ℚ).getD i 0) ^ 2 / (((4 : ℕ) : ℚ) - 1)) :=
  fit_explained_variance_eigenvalues unfittedInstance 4 2 Xfull svdFull
    [10, 5] Vfull Ufull (by norm_num) rfl rfl rfl Ufull_orthonormal
    Vfull_orthogonal Xfull_decomp (by decide) (by decide)

/-- Reading a take at an index below the cut reads the original list. -/
theorem getD_take_of_lt {α : Type} (l : List α) (k i : ℕ) (d : α) (h : i < k) :
    (l.take k).getD i d = l.getD i d := by
  simp [List.getD_eq_getElem?_getD, List.getElem?_take, h]

/-- The resolved component count after clamping never exceeds the feature
count. -/
theorem componentCount_clamp_le (c : Option ℤ) (p : ℕ) :
    componentCount (clampComponents c p) p ≤ p := by
  cases c with
  | none => simp [clampComponents, componentCount]
  | some c =>
      by_cases h : (p : ℤ) < c
      · simp [clampComponents, componentCount, h]
      · simp only [clampComponents, componentCount, if_neg h]
        omega

/-- C4: after any fit, the stored loadings form a `p × k` matrix whose
columns are mutually orthonormal, and the variances associated to the
columns are stored in descending order. -/
theorem fit_loadings_orthonormal (st : PCA) (n p k : ℕ) (X : List (List ℚ))
    (svdf : List (List ℚ) → SVDResult) (svals : List ℚ) (Vl : List (List ℚ))
    (hn : 2 ≤ n)
    (hsvd : svdf (centeredList n p X) = { svals := svals, V := Vl })
    (hk : k = componentCount (clampComponents st.n_components p) p)
    (hV : IsMat p p Vl)
    (hVorth : (toMat p p Vl)ᵀ * toMat p p Vl = 1)
    (hdesc : ∀ i j : ℕ, i ≤ j → svals.getD j 0 ≤ svals.getD i 0)
    (hpos : ∀ i : ℕ, 0 ≤ svals.getD i 0) :
    IsMat p k (PCA.fitCore st n p X svdf).1.loadings_ ∧
    (toMat p k (PCA.fitCore st n p X svdf).1.loadings_)ᵀ *
      toMat p k (PCA.fitCore st n p X svdf).1.loadings_ = 1 ∧
    (∀ i j : ℕ, i ≤ j →
      (PCA.fitCore st n p X svdf).1.explained_variance_.getD j 0 ≤
        (PCA.fitCore st n p X svdf).1.explained_variance_.getD i 0) := by
  have hkp : k ≤ p := hk ▸ componentCount_clamp_le st.n_components p
  have hL : (PCA.fitCore st n p X svdf).1.loadings_ =
      Vl.map fun row => row.take k := by
    rw [fitCore_fields]
    simp only [hsvd, ← hk]
  have hev : (PCA.fitCore st n p X svdf).1.explained_variance_ =
      (svals.map fun s => s ^ 2 / ((n : ℚ) - 1)).take k := by
    rw [fitCore_fields]
    simp only [hsvd, ← hk]
  have hn1 : (0 : ℚ) < (n : ℚ) - 1 := by
    have : (2 : ℚ) ≤ (n : ℚ) := by exact_mod_cast hn
    linarith
  refine ⟨?_, ?_, ?_⟩
  · rw [hL]
    refine ⟨by simp [hV.1], ?_⟩
    intro row hrow
    simp only [List.mem_map] at hrow
    obtain ⟨r0, hr0, rfl⟩ := hrow
    rw [List.length_take, hV.2 r0 hr0]
    omega
  · rw [hL]
    ext a b
    rw [Matrix.mul_apply]
    have key : ∀ (t : Fin p) (x : Fin k),
        toMat p k (Vl.map fun row => row.take k) t x =
          toMat p p Vl t (Fin.castLE hkp x) := by
      intro t x
      show entry (Vl.map fun row => row.take k) t x = entry Vl t (Fin.castLE hkp x)
      unfold entry
      rw [getD_map_of_lt _ Vl (t : ℕ) [] [] (by rw [hV.1]; exact t.isLt)]
      rw [getD_take_of_lt _ k (x : ℕ) 0 x.isLt]
      rfl
    have hsum : ∀ t : Fin p,
        (toMat p k (Vl.map fun row => row.take k))ᵀ a t *
          toMat p k (Vl.map fun row => row.take k) t b
        = (toMat p p Vl)ᵀ (Fin.castLE hkp a) t * toMat p p Vl t (Fin.castLE hkp b) := by
      intro t
      rw [Matrix.transpose_apply, Matrix.transpose_apply, key t a, key t b]
    rw [Finset.sum_congr rfl fun t _ => hsum t, ← Matrix.mul_apply, hVorth]
    simp [Matrix.one_apply, Fin.castLE_inj]
  · intro i j hij
    rw [hev]
    have hnn : ∀ t : ℕ,
        0 ≤ ((svals.map fun s => s ^ 2 / ((n : ℚ) - 1)).take k).getD t 0 := by
      intro t
      by_cases ht : t < ((svals.map fun s => s ^ 2 / ((n : ℚ) - 1)).take k).length
      · have htk : t < k :=
          lt_of_lt_of_le ht (by rw [List.length_take]; exact Nat.min_le_left _ _)
        have htm : t < svals.length :=
          lt_of_lt_of_le ht (by rw [List.length_take, List.length_map]
                                exact Nat.min_le_right _ _)
        rw [getD_take_of_lt _ k t 0 htk, getD_map_of_lt _ svals t 0 0 htm]
        exact div_nonneg (sq_nonneg _) hn1.le
      · rw [List.getD_eq_default _ _ (le_of_not_lt ht)]
    by_cases hjl : j < ((svals.map fun s => s ^ 2 / ((n : ℚ) - 1)).take k).length
    · have hil : i < ((svals.map fun s => s ^ 2 / ((n : ℚ) - 1)).take k).length :=
        lt_of_le_of_lt hij hjl
      have hjk : j < k :=
        lt_of_lt_of_le hjl (by rw [List.length_take]; exact Nat.min_le_left _ _)
      have hjm : j < svals.length :=
        lt_of_lt_of_le hjl (by rw [List.length_take, List.length_map]
                               exact Nat.min_le_right _ _)
      have hik : i < k := lt_of_le_of_lt hij hjk
      have him : i < svals.length := lt_of_le_of_lt hij hjm
      rw [getD_take_of_lt _ k j 0 hjk, getD_map_of_lt _ svals j 0 0 hjm,
        getD_take_of_lt _ k i 0 hik, getD_map_of_lt _ svals i 0 0 him]
      exact (div_le_div_iff_of_pos_right hn1).mpr
        (pow_le_pow_left₀ (hpos j) (hdesc i j hij) 2)
    · rw [List.getD_eq_default _ _ (le_of_not_lt hjl)]
      exact hnn i

/-- The fixture's singular values are in descending order (as a list read
with default 0). -/
theorem svalsFull_desc : ∀ i j : ℕ, i ≤ j →
    ([10, 5] : List ℚ).getD j 0 ≤ ([10, 5] : List ℚ).getD i 0 := by
  intro i j hij
  rcases i with _ | _ | i <;> rcases j with _ | _ | j <;>
    simp_all [List.getD_cons_zero, List.getD_cons_succ]
  norm_num

/-- The fixture's singular values are nonnegative. -/
theorem svalsFull_nonneg : ∀ i : ℕ, 0 ≤ ([10, 5] : List ℚ).getD i 0 := by
  intro i
  rcases i with _ | _ | i <;>
    simp [List.getD_cons_zero, List.getD_cons_succ]

/-- Witness for C4 on the concrete 4 × 2 fixture with all components kept. -/
theorem fit_loadings_orthonormal_witness :
    IsMat 2 2 (PCA.fitCore unfittedInstance 4 2 Xfull svdFull).1.loadings_ ∧
    (toMat 2 2 (PCA.fitCore unfittedInstance 4 2 Xfull svdFull).1.loadings_)ᵀ *
      toMat 2 2 (PCA.fitCore unfittedInstance 4 2 Xfull svdFull).1.loadings_ = 1 ∧
    (∀ i j : ℕ, i ≤ j →
      (PCA.fitCore unfittedInstance 4 2 Xfull svdFull).1.explained_variance_.getD j 0 ≤
        (PCA.fitCore unfittedInstance 4 2 Xfull svdFull).1.explained_variance_.getD i 0) :=
  fit_loadings_orthonormal unfittedInstance 4 2 2 Xfull svdFull [10, 5] Vfull
    (by norm_num) rfl rfl (by decide) Vfull_orthogonal svalsFull_desc svalsFull_nonneg

/-- Mapping division by a constant over a list divides its sum. -/
theorem sum_map_div (l : List ℚ) (c : ℚ) :
    (l.map fun v => v / c).sum = l.sum / c := by
  induction l with
  | nil => simp
  | cons a l ih => rw [List.map_cons, List.sum_cons, ih, List.sum_cons, add_div]

/-- A prefix of a list of nonnegative values has a smaller sum. -/
theorem sum_take_le_sum (l : List ℚ) (k : ℕ) (hl : ∀ v ∈ l, 0 ≤ v) :
    (l.take k).sum ≤ l.sum := by
  conv_rhs => rw [← List.take_append_drop k l]
  rw [List.sum_append]
  have h0 : 0 ≤ (l.drop k).sum :=
    List.sum_nonneg fun x hx => hl x (List.mem_of_mem_drop hx)
  linarith

/-- C3 (amended): each stored ratio entry is the corresponding retained
variance divided by the total variance over all singular values; when the
component count is unset the ratios sum to exactly 1; in every case (so in
particular when `k < p`) they sum to at most 1. -/
theorem fit_ratios_sum_amended (st : PCA) (n p : ℕ) (X : List (List ℚ))
    (svdf : List (List ℚ) → SVDResult) (svals : List ℚ)
    (hsvd : (svdf (centeredList n p X)).svals = svals)
    (hslen : svals.length ≤ p)
    (hnorm : (svals.map fun s => s ^ 2 / ((n : ℚ) - 1)).sum ≠ 0)
    (hn : 2 ≤ n) :
    (PCA.fitCore st n p X svdf).1.explained_variance_ratio_ =
      (PCA.fitCore st n p X svdf).1.explained_variance_.map
        (fun v => v / (svals.map fun s => s ^ 2 / ((n : ℚ) - 1)).sum) ∧
    (st.n_components = none →
      (PCA.fitCore st n p X svdf).1.explained_variance_ratio_.sum = 1) ∧
    (PCA.fitCore st n p X svdf).1.explained_variance_ratio_.sum ≤ 1 := by
  have hn1 : (0 : ℚ) < (n : ℚ) - 1 := by
    have : (2 : ℚ) ≤ (n : ℚ) := by exact_mod_cast hn
    linarith
  have hrats : (PCA.fitCore st n p X svdf).1.explained_variance_ratio_ =
      ((svals.map fun s => s ^ 2 / ((n : ℚ) - 1)).take
        (componentCount (clampComponents st.n_components p) p)).map
        (fun v => v / (svals.map fun s => s ^ 2 / ((n : ℚ) - 1)).sum) := by
    rw [fitCore_fields]
    simp only [hsvd]
  have hev : (PCA.fitCore st n p X svdf).1.explained_variance_ =
      (svals.map fun s => s ^ 2 / ((n : ℚ) - 1)).take
        (componentCount (clampComponents st.n_components p) p) := by
    rw [fitCore_fields]
    simp only [hsvd]
  have hnnl : ∀ v ∈ (svals.map fun s => s ^ 2 / ((n : ℚ) - 1)), 0 ≤ v := by
    intro v hv
    obtain ⟨s0, hs0, rfl⟩ := List.mem_map.mp hv
    exact div_nonneg (sq_nonneg _) hn1.le
  have hpos_norm : 0 < (svals.map fun s => s ^ 2 / ((n : ℚ) - 1)).sum :=
    lt_of_le_of_ne (List.sum_nonneg hnnl) (Ne.symm hnorm)
  refine ⟨by rw [hrats, hev], ?_, ?_⟩
  · intro hcompnone
    rw [hrats]
    simp only [hcompnone, clampComponents, componentCount]
    rw [List.take_of_length_le (by simpa using hslen)]
    rw [sum_map_div, div_self hnorm]
  · rw [hrats, sum_map_div]
    rw [div_le_one hpos_norm]
    exact sum_take_le_sum _ _ hnnl

/-- Witness for the amended C3 on the concrete fixture. -/
theorem fit_ratios_sum_amended_witness :
    (PCA.fitCore unfittedInstance 4 2 Xfull svdFull).1.explained_variance_ratio_ =
      (PCA.fitCore unfittedInstance 4 2 Xfull svdFull).1.explained_variance_.map
        (fun v => v /
          (([10, 5] : List ℚ).map fun s => s ^ 2 / (((4 : ℕ) : ℚ) - 1)).sum) ∧
    (unfittedInstance.n_components = none →
      (PCA.fitCore unfittedInstance 4 2 Xfull
        svdFull).1.explained_variance_ratio_.sum = 1) ∧
    (PCA.fitCore unfittedInstance 4 2 Xfull
      svdFull).1.explained_variance_ratio_.sum ≤ 1 :=
  fit_ratios_sum_amended unfittedInstance 4 2 Xfull svdFull [10, 5] rfl
    (by norm_num) (by norm_num) (by norm_num)

/-- The rank-one 4 × 2 data fixture; its second singular value is 0 and
both feature means are zero. -/
def Xrank1 : List (List ℚ) := [[3, 4], [-3, -4], [3, 4], [-3, -4]]

/-- Decomposition oracle returning the hand-checked SVD data of `Xrank1`
(singular values 10 and 0). -/
def svdRank1 : List (List ℚ) → SVDResult :=
  fun _ => { svals := [10, 0], V := Vfull }

/-- An instance as constructed with `n_components = 1`. -/
def pca1 : PCA :=
  { n_components := some 1, _mean := [], loadings_ := [], explained_variance_ := [],
    explained_variance_ratio_ := [], _fitted := false }

/-- The rank-one fixture also has vanishing feature means. -/
theorem centered_Xrank1 : centeredList 4 2 Xrank1 = Xrank1 := by
  norm_num [centeredList, colMeans, subMean, Xrank1, List.range_succ,
    List.getD_cons_zero, List.getD_cons_succ]

/-- Hand-checked decomposition of the centered rank-one fixture. -/
theorem Xrank1_decomp :
    toMat 4 2 (centeredList 4 2 Xrank1) =
      Ufull * Matrix.diagonal (fun i : Fin 2 => ([10, 0] : List ℚ).getD i 0) *
        (toMat 2 2 Vfull)ᵀ := by
  rw [centered_Xrank1]
  ext i j
  fin_cases i <;> fin_cases j <;>
    simp [Ufull, Vfull, Xrank1, toMat, entry, Matrix.mul_apply, Matrix.diagonal,
      Matrix.transpose_apply, Fin.sum_univ_two, List.getD_cons_zero,
      List.getD_cons_succ, show ((3 : Fin 4) : ℕ) = 3 from rfl] <;> norm_num

/-- A constant 2 × 1 data fixture with zero total variance. -/
def Xzero : List (List ℚ) := [[0], [0]]

/-- Identity-basis oracle on one feature (singular value 0). -/
def svdId1 : List (List ℚ) → SVDResult :=
  fun _ => { svals := [0], V := [[1]] }

/-- Counterexample to C3 as stated, in two parts.  First, on the rank-one
fixture fitted with `n_components = 1 < p = 2` through a legitimate
decomposition (orthonormal factors, descending nonnegative singular
values), the stored ratios sum to exactly 1, not strictly less than 1.
Second, on valid constant data (zero total variance) with the count unset,
every stored ratio entry is a division of zero by zero (`NaN` in `numpy`,
embedded exactly as 0 over `ℚ`), so the ratios sum to 0, not 1; hence the
claim also fails without a nonzero-total-variance proviso. -/
theorem fit_ratios_strict_counterexample :
    (PCA.init (some 1) = .ok pca1 ∧
    Ufullᵀ * Ufull = 1 ∧
    (toMat 2 2 Vfull)ᵀ * toMat 2 2 Vfull = 1 ∧
    toMat 4 2 (centeredList 4 2 Xrank1) =
      Ufull * Matrix.diagonal (fun i : Fin 2 => ([10, 0] : List ℚ).getD i 0) *
        (toMat 2 2 Vfull)ᵀ ∧
    (∀ i j : ℕ, i ≤ j →
      ([10, 0] : List ℚ).getD j 0 ≤ ([10, 0] : List ℚ).getD i 0) ∧
    (∀ i : ℕ, 0 ≤ ([10, 0] : List ℚ).getD i 0) ∧
    (PCA.fitCore pca1 4 2 Xrank1 svdRank1).1.n_components = some 1 ∧
    (PCA.fitCore pca1 4 2 Xrank1 svdRank1).1.explained_variance_ratio_ = [1] ∧
    ¬ (PCA.fitCore pca1 4 2 Xrank1 svdRank1).1.explained_variance_ratio_.sum < 1) ∧
    ((toMat 2 1 [[1], [0]])ᵀ * toMat 2 1 [[1], [0]] = 1 ∧
    (toMat 1 1 [[1]])ᵀ * toMat 1 1 [[1]] = 1 ∧
    toMat 2 1 (centeredList 2 1 Xzero) =
      toMat 2 1 [[1], [0]] *
        Matrix.diagonal (fun i : Fin 1 => ([0] : List ℚ).getD i 0) *
        (toMat 1 1 [[1]])ᵀ ∧
    unfittedInstance.n_components = none ∧
    (PCA.fitCore unfittedInstance 2 1 Xzero
      svdId1).1.explained_variance_ratio_.sum = 0 ∧
    ¬ (PCA.fitCore unfittedInstance 2 1 Xzero
      svdId1).1.explained_variance_ratio_.sum = 1) := by
  have hrats :
      (PCA.fitCore pca1 4 2 Xrank1 svdRank1).1.explained_variance_ratio_ = [1] := by
    rw [fitCore_fields]
    norm_num [pca1, svdRank1, clampComponents, componentCount]
  have hz : (PCA.fitCore unfittedInstance 2 1 Xzero
      svdId1).1.explained_variance_ratio_.sum = 0 := by
    rw [fitCore_fields]
    norm_num [unfittedInstance, svdId1, clampComponents, componentCount]
  refine ⟨⟨?_, Ufull_orthonormal, Vfull_orthogonal, Xrank1_decomp, ?_, ?_, ?_,
    hrats, ?_⟩, ?_, ?_, ?_, rfl, hz, ?_⟩
  · norm_num [PCA.init, pca1]
  · intro i j hij
    rcases i with _ | _ | i <;> rcases j with _ | _ | j <;>
      simp_all [List.getD_cons_zero, List.getD_cons_succ]
  · intro i
    rcases i with _ | _ | i <;> simp [List.getD_cons_zero, List.getD_cons_succ]
  · rw [fitCore_fields]
    norm_num [pca1, clampComponents]
  · rw [hrats]
    norm_num
  · ext a b
    fin_cases a
    fin_cases b
    simp [toMat, entry, Matrix.mul_apply, Fin.sum_univ_two, Matrix.one_apply,
      Matrix.transpose_apply, List.getD_cons_zero, List.getD_cons_succ]
  · ext a b
    fin_cases a
    fin_cases b
    simp [toMat, entry, Matrix.mul_apply, Fin.sum_univ_one, Matrix.one_apply,
      Matrix.transpose_apply, List.getD_cons_zero, List.getD_cons_succ]
  · have hcz : centeredList 2 1 Xzero = Xzero := by
      norm_num [centeredList, colMeans, subMean, Xzero, List.range_succ,
        List.getD_cons_zero, List.getD_cons_succ]
    rw [hcz]
    ext a b
    fin_cases a <;> fin_cases b <;>
      simp [Xzero, toMat, entry, Matrix.mul_apply, Matrix.diagonal,
        Matrix.transpose_apply, Fin.sum_univ_one, List.getD_cons_zero,
        List.getD_cons_succ]

  · rw [hz]
    norm_num

/-- C8: when a finite requested count exceeds the feature count of a 2-D
input, `fit` succeeds (no error is raised) and the retained count is
silently clamped to `p`. -/
theorem fit_clamps_components (st : PCA) (A : NDArray) (n p : ℕ) (c : ℤ)
    (svdf : List (List ℚ) → SVDResult)
    (hshape : A.shape = [n, p]) (hc : st.n_components = some c)
    (hcp : (p : ℤ) < c) :
    PCA.fit st A svdf = .ok (PCA.fitCore st n p (ndToRows n p A) svdf).1 ∧
    (PCA.fitCore st n p (ndToRows n p A) svdf).1.n_components = some (p : ℤ) ∧
    componentCount (PCA.fitCore st n p (ndToRows n p A) svdf).1.n_components p
      = p := by
  have h2 : (PCA.fitCore st n p (ndToRows n p A) svdf).1.n_components
      = some (p : ℤ) := by
    rw [fitCore_fields]
    simp [hc, clampComponents, hcp]
  refine ⟨?_, h2, ?_⟩
  · simp [PCA.fit, hshape]
  · rw [h2]
    simp [componentCount]

/-- An instance as constructed with `n_components = 5`. -/
def pca5 : PCA :=
  { n_components := some 5, _mean := [], loadings_ := [], explained_variance_ := [],
    explained_variance_ratio_ := [], _fitted := false }

/-- A 2 × 1 array fixture. -/
def array21 : NDArray := { shape := [2, 1], data := [1, 2] }

/-- Witness for C8: requesting 5 components on 1-feature data succeeds with
the stored count clamped to 1. -/
theorem fit_clamps_components_witness :
    PCA.fit pca5 array21 trivialSVD =
      .ok (PCA.fitCore pca5 2 1 (ndToRows 2 1 array21) trivialSVD).1 ∧
    (PCA.fitCore pca5 2 1 (ndToRows 2 1 array21) trivialSVD).1.n_components =
      some ((1 : ℕ) : ℤ) ∧
    componentCount
      (PCA.fitCore pca5 2 1 (ndToRows 2 1 array21) trivialSVD).1.n_components 1
      = 1 :=
  fit_clamps_components pca5 array21 2 1 5 trivialSVD rfl rfl (by norm_num)

/-- C10: clamping writes the clamped count into the instance itself, so a
subsequent fit on data with strictly more features still retains only the
previously clamped number of components. -/
theorem fit_clamp_overwrites_state (st : PCA) (n p n2 p2 : ℕ)
    (X X2 : List (List ℚ)) (svdf svdf2 : List (List ℚ) → SVDResult) (c : ℤ)
    (hc : st.n_components = some c) (h1 : (p : ℤ) < c) (h2 : p < p2)
    (hV2 : IsMat p2 p2 (svdf2 (centeredList n2 p2 X2)).V) :
    (PCA.fitCore st n p X svdf).1.n_components = some (p : ℤ) ∧
    (PCA.fitCore (PCA.fitCore st n p X svdf).1 n2 p2 X2 svdf2).1.n_components =
      some (p : ℤ) ∧
    IsMat p2 p
      (PCA.fitCore (PCA.fitCore st n p X svdf).1 n2 p2 X2 svdf2).1.loadings_ := by
  have ha : (PCA.fitCore st n p X svdf).1.n_components = some (p : ℤ) := by
    rw [fitCore_fields]
    simp [hc, clampComponents, h1]
  have hb : clampComponents (some (p : ℤ)) p2 = some (p : ℤ) := by
    have hno : ¬ ((p2 : ℤ) < (p : ℤ)) := by exact_mod_cast not_lt.mpr h2.le
    simp [clampComponents, hno]
  have hkc : componentCount (some (p : ℤ)) p2 = p := by
    simp [componentCount]
  have hc2 : (PCA.fitCore (PCA.fitCore st n p X svdf).1 n2 p2 X2
      svdf2).1.n_components = some (p : ℤ) := by
    rw [fitCore_fields, ha, hb]
  refine ⟨ha, hc2, ?_⟩
  rw [fitCore_fields, ha, hb, hkc]
  constructor
  · simp [hV2.1]
  · intro row hrow
    simp only [List.mem_map] at hrow
    obtain ⟨r0, hr0, rfl⟩ := hrow
    rw [List.length_take, hV2.2 r0 hr0]
    omega

/-- Identity-basis oracle on two features. -/
def svdId2 : List (List ℚ) → SVDResult :=
  fun _ => { svals := [0, 0], V := [[1, 0], [0, 1]] }

/-- Witness for C10: after clamping 5 components down to 1 on 1-feature
data, refitting on 2-feature data still keeps only 1 component. -/
theorem fit_clamp_overwrites_state_witness :
    (PCA.fitCore pca5 2 1 [[0], [0]] svdId1).1.n_components =
      some ((1 : ℕ) : ℤ) ∧
    (PCA.fitCore (PCA.fitCore pca5 2 1 [[0], [0]] svdId1).1 2 2 [[0, 0], [0, 0]]
      svdId2).1.n_components = some ((1 : ℕ) : ℤ) ∧
    IsMat 2 1 (PCA.fitCore (PCA.fitCore pca5 2 1 [[0], [0]] svdId1).1 2 2
      [[0, 0], [0, 0]] svdId2).1.loadings_ :=
  fit_clamp_overwrites_state pca5 2 1 2 2 [[0], [0]] [[0, 0], [0, 0]]
    svdId1 svdId2 5 rfl (by norm_num) (by norm_num) (by decide)
